import Mathlib

/-!
Verification development for the stream-timestamp-analyzer repository.

Byte buffers are shallowly embedded as `List Nat` (one entry per byte), bit
streams as `List Bool` (MSB-first).  Python functions that can raise are
embedded as `Option`-valued functions: `none` is an exception escaping to the
caller (every caller in the sources catches broadly and turns it into an
absent result).  Loops whose indices strictly increase are embedded with an
explicit fuel argument that the wrapper instantiates with `length + 1`, which
is always sufficient because every iteration advances the position by at
least one byte.
-/

namespace S2P

/-! ### NAL unit scanning (src/stream_analyzer.py, `extract_nals_from_packet`)

`bytes.find(b'\x00\x00\x01', i)` is embedded as `find3`: the least index
`j ≥ i` at which the three bytes `00 00 01` occur, `none` standing for
Python's `-1`. -/

/-- Does the list start with the 3-byte start code `00 00 01`? -/
def hasSCPrefix (l : List Nat) : Bool :=
  decide (l.take 3 = [0, 0, 1])

/-- Index of the first occurrence of `00 00 01` in a list, if any. -/
def findSC : List Nat → Option Nat
  | [] => none
  | l@(_ :: rest) => if hasSCPrefix l then some 0 else (findSC rest).map (· + 1)

/-- `data.find(b'\x00\x00\x01', i)` from the source: search starts at
absolute index `i`, the result is an absolute index. -/
def find3 (data : List Nat) (i : Nat) : Option Nat :=
  (findSC (data.drop i)).map (· + i)

/-- The scanning loop of `RTMPStreamAnalyzer.extract_nals_from_packet`
(src/src/stream_analyzer.py lines 105-127), with fuel.  Each iteration either
terminates the loop or moves `i` to the next start-code position, which is at
least 3 bytes further, so `data.length + 1` fuel is always enough. -/
def scanLoop (data : List Nat) : Nat → Nat → List (List Nat)
  | 0, _ => []
  | fuel + 1, i =>
    if i < data.length then
      match find3 data i with
      | none => []
      | some s0 =>
        let start := s0 + 3
        match find3 data start with
        | none =>
          let nal := data.drop start
          if nal = [] then [] else [nal]
        | some nextStart =>
          let nal := (data.drop start).take (nextStart - start)
          let rest := scanLoop data fuel nextStart
          if nal = [] then rest else nal :: rest
    else []

/-- `RTMPStreamAnalyzer.extract_nals_from_packet` (start-code scan), returning
the byte span of each discovered NAL unit. -/
def extract_nals_from_packet (data : List Nat) : List (List Nat) :=
  scanLoop data (data.length + 1) 0

/-- Annex-B re-encoding of a sequence of NAL unit payloads: each payload is
preceded by the 3-byte start code `00 00 01`. -/
def encodeAnnexB (ps : List (List Nat)) : List Nat :=
  (ps.map (fun p => 0 :: 0 :: 1 :: p)).flatten

/-! ### AVCC mode and the dual-mode scanner

Modelled from the spec: the repository's current NAL scanner (it lives in the
base-class module that also defines `process_video_packet`, which is called
from src/src/analyzers/rtmp.py, flv.py and hls.py but is not present under
src/) first attempts length-prefixed (AVCC) mode — repeatedly read a 4-byte
big-endian length, then that many bytes as one NAL unit's payload — aborting
without raising the moment a declared length would run past the end of the
buffer or a computed position is inconsistent, and on any such failure falls
back to the start-code scan `extract_nals_from_packet`. -/

/-- 4-byte big-endian encoding of a length. -/
def be32 (n : Nat) : List Nat :=
  [n / 16777216 % 256, n / 65536 % 256, n / 256 % 256, n % 256]

/-- Read a 4-byte big-endian integer at position `pos` (caller checks bounds). -/
def be32At (data : List Nat) (pos : Nat) : Nat :=
  match (data.drop pos).take 4 with
  | [a, b, c, d] => a * 16777216 + b * 65536 + c * 256 + d
  | _ => 0

/-- Modelled from the spec: the AVCC-mode loop.  `none` is the silent abort
that triggers the start-code fallback.  Each iteration consumes at least 4
bytes, so `data.length + 1` fuel is always enough. -/
def avccLoop (data : List Nat) : Nat → Nat → Option (List (List Nat))
  | 0, _ => none
  | fuel + 1, pos =>
    if pos = data.length then some []
    else if pos + 4 ≤ data.length then
      let n := be32At data pos
      if pos + 4 + n ≤ data.length then
        (avccLoop data fuel (pos + 4 + n)).map ((data.drop (pos + 4)).take n :: ·)
      else none
    else none

/-- Modelled from the spec: AVCC-mode attempt over a whole buffer. -/
def avcc_scan (data : List Nat) : Option (List (List Nat)) :=
  avccLoop data (data.length + 1) 0

/-- Modelled from the spec: the dual-mode scanner `scan` — AVCC mode first,
start-code mode (the `extract_nals_from_packet` of src/src/stream_analyzer.py)
as the fallback on AVCC abort. -/
def scan (data : List Nat) : List (List Nat) :=
  match avcc_scan data with
  | some units => units
  | none => extract_nals_from_packet data

/-- AVCC re-encoding of a sequence of NAL unit payloads: each payload is
preceded by its 4-byte big-endian length. -/
def encodeAvcc (ps : List (List Nat)) : List Nat :=
  (ps.map (fun p => be32 p.length ++ p)).flatten

/-! ### AMF0 decoder (src/src/utils/amf_analyzer.py, class AMFAnalyzer)

Python values decoded from AMF0 are embedded as `AMF0Value`.  A `Number` keeps
its 8 raw IEEE-754 bytes undecoded (no claim inspects the numeric value);
strings keep their UTF-8 bytes, with validity checked exactly where the
source calls `.decode('utf-8')`; Python's `None` result (for Null, Undefined
and unsupported markers alike) is `nullValue`; both `Object` and `EcmaArray`
decode to a Python `dict`, embedded as the ordered field list of `object`. -/

inductive AMF0Value where
  | number (raw : List Nat)
  | boolean (b : Bool)
  | str (bytes : List Nat)
  | object (fields : List (List Nat × AMF0Value))
  | nullValue
deriving Repr

/-- `AMFAnalyzer.read_u8`: `data[offset]` raises `IndexError` out of range. -/
def read_u8 (data : List Nat) (offset : Nat) : Option (Nat × Nat) :=
  match data.get? offset with
  | some b => some (b, offset + 1)
  | none => none

/-- `AMFAnalyzer.read_u16`: `struct.unpack('>H', ...)` raises unless the
slice has exactly 2 bytes. -/
def read_u16 (data : List Nat) (offset : Nat) : Option (Nat × Nat) :=
  if offset + 2 ≤ data.length then
    some (((data.drop offset).take 2).foldl (fun a b => a * 256 + b) 0, offset + 2)
  else none

/-- `AMFAnalyzer.read_u32`: `struct.unpack('>I', ...)` on a 4-byte slice. -/
def read_u32 (data : List Nat) (offset : Nat) : Option (Nat × Nat) :=
  if offset + 4 ≤ data.length then
    some (((data.drop offset).take 4).foldl (fun a b => a * 256 + b) 0, offset + 4)
  else none

/-- `AMFAnalyzer.read_double`: `struct.unpack('>d', ...)` on an 8-byte slice;
the 8 raw bytes are kept in place of the decoded float. -/
def read_double (data : List Nat) (offset : Nat) : Option (List Nat × Nat) :=
  if offset + 8 ≤ data.length then some ((data.drop offset).take 8, offset + 8)
  else none

/-- Is a UTF-8 continuation byte (0x80-0xBF)? -/
def utf8Cont (b : Nat) : Bool := 128 ≤ b && b ≤ 191

/-- UTF-8 validity of a byte sequence, as checked by Python's
`bytes.decode('utf-8')` (shortest-form encodings, no surrogates, max U+10FFFF). -/
def utf8Valid : List Nat → Bool
  | [] => true
  | b :: rest =>
    if b ≤ 127 then utf8Valid rest
    else if 194 ≤ b && b ≤ 223 then
      match rest with
      | c :: r => utf8Cont c && utf8Valid r
      | [] => false
    else if b = 224 then
      match rest with
      | c :: d :: r => (160 ≤ c && c ≤ 191) && utf8Cont d && utf8Valid r
      | _ => false
    else if (225 ≤ b && b ≤ 236) || b = 238 || b = 239 then
      match rest with
      | c :: d :: r => utf8Cont c && utf8Cont d && utf8Valid r
      | _ => false
    else if b = 237 then
      match rest with
      | c :: d :: r => (128 ≤ c && c ≤ 159) && utf8Cont d && utf8Valid r
      | _ => false
    else if b = 240 then
      match rest with
      | c :: d :: e :: r => (144 ≤ c && c ≤ 191) && utf8Cont d && utf8Cont e && utf8Valid r
      | _ => false
    else if 241 ≤ b && b ≤ 243 then
      match rest with
      | c :: d :: e :: r => utf8Cont c && utf8Cont d && utf8Cont e && utf8Valid r
      | _ => false
    else if b = 244 then
      match rest with
      | c :: d :: e :: r => (128 ≤ c && c ≤ 143) && utf8Cont d && utf8Cont e && utf8Valid r
      | _ => false
    else false

/-- `AMFAnalyzer.read_string`: a 2-byte (short) or 4-byte (long) big-endian
length followed by UTF-8 bytes.  Python's slice `data[offset:offset+length]`
silently clamps at the buffer end, and the returned offset is
`offset + length` even then; only the length read and the UTF-8 decode can
raise. -/
def read_string (data : List Nat) (offset : Nat) (is_long : Bool) : Option (List Nat × Nat) :=
  match (if is_long then read_u32 data offset else read_u16 data offset) with
  | none => none
  | some (len, off) =>
    let bytes := (data.drop off).take len
    if utf8Valid bytes then some (bytes, off + len) else none

mutual

/-- `AMFAnalyzer.parse_amf0_value`, with fuel (the Python recursion
terminates because the offset strictly increases; fuel `data.length + 1` is
always sufficient).  `none` is an exception escaping to the caller; the
unsupported-marker branch logs and returns `(None, offset)` with the offset
just past the marker byte. -/
def parse_amf0_value : Nat → List Nat → Nat → Option (AMF0Value × Nat)
  | 0, _, _ => none
  | fuel + 1, data, offset =>
    match read_u8 data offset with
    | none => none
    | some (marker, off) =>
      if marker = 0x00 then
        (read_double data off).map (fun (raw, o) => (AMF0Value.number raw, o))
      else if marker = 0x01 then
        match read_u8 data off with
        | none => none
        | some (v, o) => some (AMF0Value.boolean (v ≠ 0), o)
      else if marker = 0x02 then
        (read_string data off false).map (fun (s, o) => (AMF0Value.str s, o))
      else if marker = 0x0C then
        (read_string data off true).map (fun (s, o) => (AMF0Value.str s, o))
      else if marker = 0x03 then
        (parseObjectFields fuel data off).map (fun (fs, o) => (AMF0Value.object fs, o))
      else if marker = 0x08 then
        -- parse_ecma_array: the 4-byte count is read and discarded, then the
        -- object grammar is used until the end marker.
        match read_u32 data off with
        | none => none
        | some (_, off2) =>
          (parseObjectFields fuel data off2).map (fun (fs, o) => (AMF0Value.object fs, o))
      else if marker = 0x05 ∨ marker = 0x06 then
        some (AMF0Value.nullValue, off)
      else
        some (AMF0Value.nullValue, off)

/-- The `while True` name/value loop shared by the Object branch of
`parse_amf0_value` and by `parse_ecma_array`: read a property name; an empty
name whose following byte is the object-end marker 0x09 terminates, otherwise
parse and record the value and continue.  `data[offset]` in the terminator
check raises `IndexError` past the end. -/
def parseObjectFields : Nat → List Nat → Nat → Option (List (List Nat × AMF0Value) × Nat)
  | 0, _, _ => none
  | fuel + 1, data, offset =>
    match read_string data offset false with
    | none => none
    | some (key, off) =>
      match data.get? off with
      | none => none
      | some b =>
        if key = [] ∧ b = 0x09 then some ([], off + 1)
        else
          match parse_amf0_value fuel data off with
          | none => none
          | some (v, off2) =>
            (parseObjectFields fuel data off2).map (fun (fs, o) => ((key, v) :: fs, o))

end

/-- `AMFAnalyzer.parse_amf0_value` entry point: one value decoded at `offset`. -/
def decode_value (data : List Nat) (offset : Nat) : Option (AMF0Value × Nat) :=
  parse_amf0_value (data.length + 1) data offset

/-- The extracted `onFI` message: the Python result `{'type': 'onfi',
'data': onfi_data}` (the `type` entry is the constant tag). -/
structure OnfiMessage where
  data : AMF0Value
deriving Repr

/-- The bytes of the literal `'onFI'`. -/
def onFIBytes : List Nat := [111, 110, 70, 73]

/-- The top-level scan loop of `AMFAnalyzer.extract_onfi_data`, with fuel
(the offset strictly increases each iteration, so `data.length + 1` is always
sufficient).  Any exception from a read or a value parse is caught by the
source's `try`/`except` and becomes `None`, i.e. `none` here. -/
def onfiLoop (data : List Nat) : Nat → Nat → Option OnfiMessage
  | 0, _ => none
  | fuel + 1, offset =>
    if offset < data.length then
      match read_u8 data offset with
      | none => none
      | some (marker, newOff) =>
        if marker = 0x02 then
          match read_string data newOff false with
          | none => none
          | some (command, newOff2) =>
            if command = onFIBytes then
              match parse_amf0_value (data.length + 1) data newOff2 with
              | none => none
              | some (v, _) => some ⟨v⟩
            else onfiLoop data fuel newOff2
        else
          match parse_amf0_value (data.length + 1) data offset with
          | none => none
          | some (_, off) => onfiLoop data fuel off
    else none

/-- `AMFAnalyzer.extract_onfi_data`. -/
def extract_onfi_data (data : List Nat) : Option OnfiMessage :=
  onfiLoop data (data.length + 1) 0

/-- `startsWithOnfi l` holds when `l` begins with the bytes of `'onFI'`. -/
def startsWithOnfi (l : List Nat) : Bool :=
  decide (l.take 4 = onFIBytes)

/-- Does the byte sequence of `'onFI'` occur anywhere in the buffer? -/
def containsOnfi : List Nat → Bool
  | [] => false
  | l@(_ :: rest) => startsWithOnfi l || containsOnfi rest

/-! ### SEI parsing (src/src/nal_unit.py, class NALUnit)

The `bitstring.BitStream` over the payload bytes is embedded as a
`List Bool` (MSB-first) together with an explicit cursor.  `bits.read`
raises `ReadError` without moving the cursor when fewer bits remain than
requested, so a failed read is reported together with the cursor position at
which it was attempted. -/

/-- MSB-first bits of one byte. -/
def byteToBits (b : Nat) : List Bool :=
  [b / 128 % 2 = 1, b / 64 % 2 = 1, b / 32 % 2 = 1, b / 16 % 2 = 1,
   b / 8 % 2 = 1, b / 4 % 2 = 1, b / 2 % 2 = 1, b % 2 = 1]

/-- `BitStream(data)`: the MSB-first bit sequence of a byte buffer. -/
def bytesToBits (data : List Nat) : List Bool :=
  (data.map byteToBits).flatten

/-- Unsigned value of an MSB-first bit list. -/
def bitsVal (bs : List Bool) : Nat :=
  bs.foldl (fun acc b => 2 * acc + (if b then 1 else 0)) 0

/-- `bits.read('uint:n')` at cursor `pos`: `none` is `ReadError` (cursor
unmoved), otherwise the value and the advanced cursor. -/
def readBits (bits : List Bool) (pos n : Nat) : Option (Nat × Nat) :=
  if pos + n ≤ bits.length then some (bitsVal ((bits.drop pos).take n), pos + n)
  else none

/-- `bits.read('bool')`. -/
def readBit (bits : List Bool) (pos : Nat) : Option (Bool × Nat) :=
  (readBits bits pos 1).map (fun (v, p) => (v = 1, p))

/-- `bits.read('int:n')`: two's-complement signed read. -/
def readSBits (bits : List Bool) (pos n : Nat) : Option (Int × Nat) :=
  (readBits bits pos n).map (fun (v, p) =>
    (if v < 2 ^ (n - 1) then (v : Int) else (v : Int) - 2 ^ n, p))

/-- The `ClockTimestamp` dataclass: every field optional, `none` until the
corresponding bit read succeeds. -/
structure ClockTimestamp where
  ct_type : Option Nat := none
  nuit_field_based_flag : Option Bool := none
  counting_type : Option Nat := none
  full_timestamp_flag : Option Bool := none
  discontinuity_flag : Option Bool := none
  cnt_dropped_flag : Option Bool := none
  n_frames : Option Nat := none
  seconds_value : Option Nat := none
  minutes_value : Option Nat := none
  hours_value : Option Nat := none
  time_offset : Option Int := none
deriving Repr, DecidableEq

/-- The seconds/minutes/hours section of `NALUnit._parse_clock_timestamp`
(the `if ct.full_timestamp_flag:` block): unconditional seconds, minutes and
hours reads in the full-timestamp branch, and the
`seconds_flag`/`minutes_flag`/`hours_flag` presence chain otherwise, each
read updating the partially-filled `ClockTimestamp`. -/
def ct_read_hms (bits : List Bool) (p7 : Nat) (fullFlag : Bool) (base : ClockTimestamp) :
    Option ClockTimestamp × Nat :=
  if fullFlag then
    match readBits bits p7 6 with
    | none => (none, p7)
    | some (sec, q1) =>
    match readBits bits q1 6 with
    | none => (none, q1)
    | some (min, q2) =>
    match readBits bits q2 5 with
    | none => (none, q2)
    | some (hour, q3) =>
      (some { base with
                seconds_value := some sec, minutes_value := some min,
                hours_value := some hour }, q3)
  else
    match readBit bits p7 with
    | none => (none, p7)
    | some (secondsFlag, q1) =>
      if secondsFlag then
        match readBits bits q1 6 with
        | none => (none, q1)
        | some (sec, q2) =>
        match readBit bits q2 with
        | none => (none, q2)
        | some (minutesFlag, q3) =>
          if minutesFlag then
            match readBits bits q3 6 with
            | none => (none, q3)
            | some (min, q4) =>
            match readBit bits q4 with
            | none => (none, q4)
            | some (hoursFlag, q5) =>
              if hoursFlag then
                match readBits bits q5 5 with
                | none => (none, q5)
                | some (hour, q6) =>
                  (some { base with
                            seconds_value := some sec,
                            minutes_value := some min,
                            hours_value := some hour }, q6)
              else
                (some { base with
                          seconds_value := some sec,
                          minutes_value := some min }, q5)
          else
            (some { base with seconds_value := some sec }, q3)
      else (some base, q1)

/-- The trailing `if time_offset_length > 0` block of
`NALUnit._parse_clock_timestamp`: on a successfully built timestamp, read
the signed time offset (failure there discards the whole timestamp). -/
def ct_finish (bits : List Bool) (tol : Nat) (r : Option ClockTimestamp × Nat) :
    Option ClockTimestamp × Nat :=
  match r with
  | (none, pe) => (none, pe)
  | (some ct, p8) =>
    if 0 < tol then
      match readSBits bits p8 tol with
      | none => (none, p8)
      | some (toff, p9) => (some { ct with time_offset := some toff }, p9)
    else (some ct, p8)

/-- `NALUnit._parse_clock_timestamp`.  The first component is the parsed
timestamp (`none` when a `ReadError` was caught and logged), the second is
the cursor position afterwards — on failure, the position reached by the
last successful read, since `bitstring` does not advance on a failed read
and the mutable `BitStream` is shared with the caller. -/
def parse_clock_timestamp (bits : List Bool) (pos : Nat) (time_offset_length : Nat) :
    Option ClockTimestamp × Nat :=
  match readBits bits pos 2 with
  | none => (none, pos)
  | some (ctType, p1) =>
  match readBit bits p1 with
  | none => (none, p1)
  | some (nuit, p2) =>
  match readBits bits p2 5 with
  | none => (none, p2)
  | some (counting, p3) =>
  match readBit bits p3 with
  | none => (none, p3)
  | some (fullFlag, p4) =>
  match readBit bits p4 with
  | none => (none, p4)
  | some (disc, p5) =>
  match readBit bits p5 with
  | none => (none, p5)
  | some (cnt, p6) =>
  match readBits bits p6 8 with
  | none => (none, p6)
  | some (nFrames, p7) =>
    let base : ClockTimestamp :=
      { ct_type := some ctType, nuit_field_based_flag := some nuit,
        counting_type := some counting, full_timestamp_flag := some fullFlag,
        discontinuity_flag := some disc, cnt_dropped_flag := some cnt,
        n_frames := some nFrames }
    ct_finish bits time_offset_length (ct_read_hms bits p7 fullFlag base)

/-- The dict built per clock timestamp by `NALUnit._parse_pic_timing`: the
four always-present keys, and `hours`/`minutes`/`seconds` (from which the
`text` rendering is also formatted) only when `hours_value` is present, where
absent minutes/seconds render as 0 (`ct.minutes_value or 0`). -/
structure CtDict where
  ct_type : Option Nat
  counting_type : Option Nat
  n_frames : Option Nat
  time_offset : Option Int
  timestamp : Option (Nat × Nat × Nat)
deriving Repr, DecidableEq

/-- Build the per-timestamp dict of `_parse_pic_timing`. -/
def toCtDict (ct : ClockTimestamp) : CtDict :=
  { ct_type := ct.ct_type, counting_type := ct.counting_type,
    n_frames := ct.n_frames, time_offset := ct.time_offset,
    timestamp :=
      match ct.hours_value with
      | some h => some (h, ct.minutes_value.getD 0, ct.seconds_value.getD 0)
      | none => none }

/-- The `NumClockTS` table of `_parse_pic_timing` (`.get(pic_struct, 1)`). -/
def numClockTs (picStruct : Nat) : Nat :=
  if picStruct = 0 ∨ picStruct = 1 ∨ picStruct = 2 then 1
  else if picStruct = 3 ∨ picStruct = 4 ∨ picStruct = 7 then 2
  else if picStruct = 5 ∨ picStruct = 6 ∨ picStruct = 8 then 3
  else 1

/-- The `for i in range(num_clock_ts)` loop of `_parse_pic_timing`: a failed
`clock_timestamp_flag` read raises out of the loop (whole payload becomes
`None`); a failed `_parse_clock_timestamp` is caught inside and only skips
that timestamp, the shared cursor staying where the failure left it. -/
def ptLoop (bits : List Bool) (tol : Nat) : Nat → Nat → Option (List CtDict × Nat)
  | 0, pos => some ([], pos)
  | n + 1, pos =>
    match readBit bits pos with
    | none => none
    | some (flag, p1) =>
      if flag then
        match parse_clock_timestamp bits p1 tol with
        | (some ct, p2) => (ptLoop bits tol n p2).map (fun (l, pe) => (toCtDict ct :: l, pe))
        | (none, p2) => ptLoop bits tol n p2
      else ptLoop bits tol n p1

/-- The picture-timing payload dict: `pic_struct` plus the
`clock_timestamps` key, which is only set when the list is nonempty —
embedded as the (possibly empty) list itself. -/
structure PicTiming where
  pic_struct : Nat
  clock_timestamps : List CtDict
deriving Repr, DecidableEq

/-- `NALUnit._parse_pic_timing` with the source's default configuration
(`cpb_dpb_delays_present_flag = False` — no CPB/DPB reads,
`pic_struct_present_flag = True`, `time_offset_length = 24`).  Any exception
inside (in particular a `ReadError` escaping the timestamp loop) is caught
and yields `None`. -/
def parse_pic_timing (data : List Nat) : Option PicTiming :=
  let bits := bytesToBits data
  match readBits bits 0 4 with
  | none => none
  | some (picStruct, p1) =>
    match ptLoop bits 24 (numClockTs picStruct) p1 with
    | none => none
    | some (cts, _) => some ⟨picStruct, cts⟩

/-- The decoded body of one SEI payload (`_parse_sei_payload`): payload type
1 is picture timing; payload type 5 is user-data-unregistered (16-byte UUID,
then the remaining bytes or `None` if none remain); everything else — and a
type-5 payload shorter than the UUID — yields `None`. -/
inductive SEIBody where
  | picTiming (pt : PicTiming)
  | userDataUnregistered (uuid : List Nat) (rest : Option (List Nat))
deriving Repr, DecidableEq

/-- `NALUnit._parse_sei_payload`. -/
def parse_sei_payload (data : List Nat) (payload_type : Nat) : Option SEIBody :=
  if payload_type = 1 then (parse_pic_timing data).map SEIBody.picTiming
  else if payload_type = 5 then
    if 16 ≤ data.length then
      some (SEIBody.userDataUnregistered (data.take 16)
        (if 16 < data.length then some (data.drop 16) else none))
    else none
  else none

/-- The variable-length SEI envelope loop over a byte suffix: each `0xFF`
byte adds 255 and continues; the first non-`0xFF` byte adds its own value and
stops; hitting the buffer end stops without the final add.  Both
`payload_type` and `payload_size` are read with this loop, which appears
verbatim in `NALUnit._read_sei_payload` (src/src/nal_unit.py) and in the
`parse_sei` of src/src/stream_analyzer.py. -/
def envGo : List Nat → Nat → Nat × Nat
  | [], p => (0, p)
  | b :: rest, p =>
    if b = 255 then
      let (v, p') := envGo rest (p + 1)
      (255 + v, p')
    else (b, p + 1)

/-- The SEI envelope loop at an absolute position of the buffer. -/
def readSeiEnvelope (data : List Nat) (pos : Nat) : Nat × Nat :=
  envGo (data.drop pos) pos

/-- One decoded SEI payload, as appended by `NALUnit.parse_sei`: the parsed
body updated with its `payload_type` and `payload_size` keys. -/
structure SEIPayload where
  body : SEIBody
  payload_type : Nat
  payload_size : Nat
deriving Repr, DecidableEq

/-- `NALUnit._read_sei_payload`: the two envelope fields, then — when the
declared size fits — the parsed body and the position advanced by the
envelope's `payload_size` (whether or not the body parsed); on an overrunning
size, no payload and the position after the envelope. -/
def read_sei_payload (data : List Nat) (start_pos : Nat) : Option SEIPayload × Nat :=
  let (ptype, p1) := readSeiEnvelope data start_pos
  let (psize, p2) := readSeiEnvelope data p1
  if p2 + psize ≤ data.length then
    match parse_sei_payload ((data.drop p2).take psize) ptype with
    | some body => (some ⟨body, ptype, psize⟩, p2 + psize)
    | none => (none, p2 + psize)
  else (none, p2)

/-- The payload loop of `NALUnit.parse_sei` (src/src/nal_unit.py), with fuel
(the position strictly increases each iteration, so `data.length + 1` is
always sufficient): collect the non-`None` payloads, stopping after a payload
whose new position reaches the end or lands on the RBSP stop byte `0x80`. -/
def seiLoop (data : List Nat) : Nat → Nat → List SEIPayload
  | 0, _ => []
  | fuel + 1, pos =>
    if pos < data.length then
      let (p?, newPos) := read_sei_payload data pos
      let rest :=
        if data.length ≤ newPos ∨ data.get? newPos = some 0x80 then []
        else seiLoop data fuel newPos
      match p? with
      | some p => p :: rest
      | none => rest
    else []

/-- `NALUnit.parse_sei` (src/src/nal_unit.py) on the NAL unit's bytes: empty
result (`{}` in Python) unless the unit is SEI (`data[0] & 0x1F == 6`) and at
least 2 bytes long; otherwise the payload list starting after the 1-byte NAL
header. -/
def parse_sei (ndata : List Nat) : List SEIPayload :=
  if ndata.headD 0 % 32 = 6 ∧ 2 ≤ ndata.length then seiLoop ndata (ndata.length + 1) 1
  else []

/-! ### Packets and timing records

A demuxed packet at this core's input boundary: its raw bytes, optional
pts/dts/duration in raw demuxer units, and its rational time base.  Time
arithmetic that Python performs on floats is embedded exactly over `ℚ`. -/

structure Packet where
  data : List Nat
  pts : Option Int
  dts : Option Int
  duration : Option Int
  time_base : ℚ
deriving DecidableEq

/-- Python truthiness of an optional integer timestamp (`if not packet.dts`,
`if packet.pts`): `None` and `0` are both falsy. -/
def tsTruthy : Option Int → Bool
  | some v => v ≠ 0
  | none => false

/-- `TimingSource` (src/src/utils/timing_info.py). -/
inductive TimingSource where
  | amf_onfi
  | h264_sei
  | burned_timecode
deriving Repr, DecidableEq

/-- `TimingInfo` (src/src/utils/timing_info.py) as constructed on the
data-packet paths: `extra_data` there is always the extracted `OnfiMessage`,
and `duration` is left at its `None` default. -/
structure TimingInfo where
  stream_url : List Nat
  timestamp : ℚ
  stream_time : ℚ
  pts : Option Int
  dts : Option Int
  source : TimingSource
  extra_data : Option OnfiMessage

/-- `RTMPStreamAnalyzer.process_data_packet` (src/src/analyzers/rtmp.py):
wrap an extracted `onFI` message in a `TimingInfo` whose `timestamp` and
`stream_time` are `packet.pts * video_time_base` when `packet.pts` is truthy
and `0` otherwise; `None` when no `onFI` message is found. -/
def rtmp_process_data_packet (url : List Nat) (p : Packet) (video_time_base : ℚ) :
    Option TimingInfo :=
  match extract_onfi_data p.data with
  | some onfi =>
    let t : ℚ := if tsTruthy p.pts then (p.pts.getD 0 : ℚ) * video_time_base else 0
    some { stream_url := url, timestamp := t, stream_time := t, pts := p.pts,
           dts := p.dts, source := TimingSource.amf_onfi, extra_data := some onfi }
  | none => none

/-- Does an AMF0 value decode to a Python `dict`
(`isinstance(..., dict)`)?  Both Object and EcmaArray do. -/
def isDict : AMF0Value → Bool
  | AMF0Value.object _ => true
  | _ => false

/-- `FLVStreamAnalyzer.process_data_packet` (src/src/analyzers/flv.py):
additionally requires the `onFI` message's `data` entry to be a dict, and
fills `timestamp` and `stream_time` with the constant `0` (commented
`# Not used` in the source). -/
def flv_process_data_packet (url : List Nat) (p : Packet) (video_time_base : ℚ) :
    Option TimingInfo :=
  match extract_onfi_data p.data with
  | some onfi =>
    if isDict onfi.data then
      some { stream_url := url, timestamp := 0, stream_time := 0, pts := p.pts,
             dts := p.dts, source := TimingSource.amf_onfi, extra_data := some onfi }
    else none
  | none => none

/-! ### The video-packet path of src/src/stream_analyzer.py

`RTMPStreamAnalyzer.analyze_stream` (lines 144-167) per demuxed video
packet: skip the packet when its dts is falsy, otherwise emit one record per
SEI NAL unit found by `extract_nals_from_packet`, carrying that file's
simpler `parse_sei` result. -/

/-- One entry of the `payloads` list built by the `parse_sei` of
src/src/stream_analyzer.py: payload type and size, and the raw payload bytes
(rendered as hex in the source). -/
structure SimplePayload where
  ptype : Nat
  psize : Nat
  pdata : List Nat
deriving Repr, DecidableEq

/-- The payload loop of that simpler `parse_sei`: both envelope fields, then
append whenever the declared size fits (no per-type parsing, no 0x80 stop
check) and advance by it, else break.  Fueled; the position strictly
increases per iteration. -/
def seiBasicLoop (data : List Nat) : Nat → Nat → List SimplePayload
  | 0, _ => []
  | fuel + 1, pos =>
    if pos < data.length then
      let (ptype, p1) := readSeiEnvelope data pos
      let (psize, p2) := readSeiEnvelope data p1
      if p2 + psize ≤ data.length then
        ⟨ptype, psize, (data.drop p2).take psize⟩ :: seiBasicLoop data fuel (p2 + psize)
      else []
    else []

/-- `NALUnit.parse_sei` of src/src/stream_analyzer.py for a NAL unit's bytes. -/
def parse_sei_basic (ndata : List Nat) : List SimplePayload :=
  if ndata.headD 0 % 32 = 6 ∧ 2 ≤ ndata.length then seiBasicLoop ndata (ndata.length + 1) 1
  else []

/-- The `frame_info` dict put on the queue for each SEI NAL unit
(src/src/stream_analyzer.py lines 156-165); `stream_type` is the constant
`'rtmp'` there and is omitted here. -/
structure FrameInfo where
  stream_url : List Nat
  timestamp : ℚ
  stream_time : ℚ
  dts : Int
  pts : Option Int
  duration : Option Int
  sei_data : List SimplePayload
deriving Repr, DecidableEq

/-- The per-packet body of `RTMPStreamAnalyzer.analyze_stream`
(src/src/stream_analyzer.py lines 144-167): the records this packet puts on
the queue.  `now` is the wall-clock `datetime.now().timestamp()` captured for
the packet. -/
def analyze_video_packet (url : List Nat) (now : ℚ) (p : Packet) : List FrameInfo :=
  if tsTruthy p.dts then
    let d := p.dts.getD 0
    (extract_nals_from_packet p.data).filterMap (fun nal =>
      if nal.headD 0 % 32 = 6 then
        some { stream_url := url, timestamp := now,
               stream_time := (d : ℚ) * p.time_base, dts := d, pts := p.pts,
               duration := p.duration, sei_data := parse_sei_basic nal }
      else none)
  else []

/-! ## Theorems -/

/-! ### Generic helper lemmas -/

/-- The SEI envelope loop over `k` bytes `0xFF` followed by a terminator. -/
lemma envGo_replicate (t : List Nat) (b : Nat) (hb : b ≠ 255) :
    ∀ n p, envGo (List.replicate n 255 ++ b :: t) p = (255 * n + b, p + n + 1) := by
  intro n
  induction n with
  | zero => intro p; simp [envGo, hb]
  | succ n ih =>
    intro p
    rw [List.replicate_succ, List.cons_append]
    simp [envGo, ih (p + 1), Prod.mk.injEq]
    omega

/-! ### C3 -/

/-- C3: at any buffer position holding an AMF0 type marker outside the
supported set {0x00, 0x01, 0x02, 0x03, 0x05, 0x06, 0x08, 0x0C}, the AMF0
value decoder yields the empty value (Python `None`) and returns the input
offset advanced by exactly the one marker byte, never past unknown payload
content. -/
theorem c3_unsupported_marker_offset (data : List Nat) (offset b : Nat)
    (hb : data.get? offset = some b)
    (h0 : b ≠ 0x00) (h1 : b ≠ 0x01) (h2 : b ≠ 0x02) (h3 : b ≠ 0x03)
    (h5 : b ≠ 0x05) (h6 : b ≠ 0x06) (h8 : b ≠ 0x08) (h12 : b ≠ 0x0C) :
    decode_value data offset = some (AMF0Value.nullValue, offset + 1) := by
  unfold decode_value
  rw [parse_amf0_value]
  simp only [read_u8, hb]
  simp [h0, h1, h2, h3, h5, h6, h8, h12]

/-- Witness for C3 at the unsupported marker 0x0A (StrictArray). -/
theorem c3_unsupported_marker_offset_witness :
    decode_value [0x0A, 1, 2, 3] 0 = some (AMF0Value.nullValue, 1) :=
  c3_unsupported_marker_offset [0x0A, 1, 2, 3] 0 0x0A rfl
    (by decide) (by decide) (by decide) (by decide)
    (by decide) (by decide) (by decide) (by decide)

/-! ### C4 -/

/-- C4: the SEI envelope reader adds 255 for each successive `0xFF` byte and
terminates on the first byte below `0xFF`, adding that byte's own value; in
particular the envelope bytes `[0xFF, 0xFF, 0x05]` decode to `515`. -/
theorem c4_sei_envelope :
    (∀ (data : List Nat) (p n b : Nat),
      (data.drop p).take n = List.replicate n 255 →
      data.get? (p + n) = some b → b ≠ 255 →
      readSeiEnvelope data p = (255 * n + b, p + n + 1)) ∧
    readSeiEnvelope [0xFF, 0xFF, 0x05] 0 = (515, 3) := by
  constructor
  · intro data p n b hff hb hne
    have hb' : data[p + n]? = some b := by rw [← List.get?_eq_getElem?]; exact hb
    obtain ⟨hlt, hget⟩ := List.getElem?_eq_some.1 hb'
    have hdrop : data.drop (p + n) = b :: data.drop (p + n + 1) := by
      rw [List.drop_eq_getElem_cons hlt, hget]
    have hsplit : data.drop p = List.replicate n 255 ++ b :: data.drop (p + n + 1) := by
      conv_lhs => rw [← List.take_append_drop n (data.drop p)]
      rw [hff, List.drop_drop, hdrop]
    rw [readSeiEnvelope, hsplit, envGo_replicate _ b hne]
  · rfl

/-- Witness for C4's universal part: two `0xFF` bytes and terminator 60. -/
theorem c4_sei_envelope_witness : readSeiEnvelope [255, 255, 60] 0 = (570, 3) := by
  have h := c4_sei_envelope.1 [255, 255, 60] 0 2 60 (by decide) (by decide) (by decide)
  simpa using h

/-! ### C10 -/

/-- C10: a video packet whose decode timestamp is 0 produces no records —
the falsy guard `if not packet.dts` treats `dts == 0` exactly like a missing
dts, so the packet is silently dropped. -/
theorem c10_zero_dts_dropped (url : List Nat) (now : ℚ) (p : Packet)
    (h : p.dts = some 0) :
    analyze_video_packet url now p = [] ∧
    analyze_video_packet url now { p with dts := none } = [] := by
  constructor
  · simp [analyze_video_packet, tsTruthy, h]
  · simp [analyze_video_packet, tsTruthy]

/-- Witness for C10 at a packet that does carry an SEI NAL unit. -/
theorem c10_zero_dts_dropped_witness :
    analyze_video_packet [] 0 ⟨[0, 0, 1, 6, 0, 0], some 7, some 0, none, 1⟩ = [] ∧
    analyze_video_packet [] 0
      ⟨[0, 0, 1, 6, 0, 0], some 7, none, none, 1⟩ = [] := by
  have h := c10_zero_dts_dropped [] 0 ⟨[0, 0, 1, 6, 0, 0], some 7, some 0, none, 1⟩ rfl
  exact h

/-! ### C8

The claim says `stream_time = pts × video time base` "on every stream type
that processes data packets", but `FLVStreamAnalyzer.process_data_packet`
stores the constant `0` (`# Not used`) in `stream_time`. -/

/-- C8 counterexample: an FLV data packet with `pts = 1` and video time base
`1` yields a record whose `stream_time` is `0`, not `pts × time base = 1`. -/
theorem c8_counterexample :
    (flv_process_data_packet []
        ⟨[2, 0, 4, 111, 110, 70, 73, 3, 0, 0, 9], some 1, some 1, none, 1⟩
        1).map TimingInfo.stream_time = some 0 ∧
    (0 : ℚ) ≠ (1 : ℚ) * 1 := by
  constructor
  · rfl
  · norm_num

/-- C8 (amended): for a data-track packet from which an `onFI` message is
extracted, the RTMP analyzer's record has `stream_time = pts × video time
base` whenever the packet's pts is present and nonzero (and `0` otherwise),
while the FLV analyzer's record always has `stream_time = 0`. -/
theorem c8_stream_time_amended :
    (∀ (url : List Nat) (p : Packet) (tb : ℚ) (v : Int) (ti : TimingInfo),
      p.pts = some v → v ≠ 0 →
      rtmp_process_data_packet url p tb = some ti →
      ti.stream_time = (v : ℚ) * tb) ∧
    (∀ (url : List Nat) (p : Packet) (tb : ℚ) (ti : TimingInfo),
      flv_process_data_packet url p tb = some ti → ti.stream_time = 0) := by
  constructor
  · intro url p tb v ti hpts hv h
    unfold rtmp_process_data_packet at h
    cases honfi : extract_onfi_data p.data with
    | none => rw [honfi] at h; exact absurd h (by simp)
    | some onfi =>
      rw [honfi] at h
      have htr : tsTruthy p.pts = true := by simp [tsTruthy, hpts, hv]
      simp only [htr, if_true] at h
      cases h
      simp [hpts]
  · intro url p tb ti h
    unfold flv_process_data_packet at h
    cases honfi : extract_onfi_data p.data with
    | none => rw [honfi] at h; exact absurd h (by simp)
    | some onfi =>
      rw [honfi] at h
      dsimp only at h
      by_cases hd : isDict onfi.data = true
      · simp only [hd, if_true] at h
        cases h
        rfl
      · simp only [Bool.not_eq_true] at hd
        rw [hd] at h
        simp at h

/-- Witness for C8 (amended), RTMP side: `pts = 2`, time base `1`. -/
theorem c8_stream_time_amended_witness :
    ({ stream_url := [], timestamp := 2 * 1, stream_time := 2 * 1, pts := some 2,
       dts := none, source := TimingSource.amf_onfi,
       extra_data := some ⟨AMF0Value.object []⟩ } : TimingInfo).stream_time =
      ((2 : Int) : ℚ) * 1 :=
  c8_stream_time_amended.1 []
    ⟨[2, 0, 4, 111, 110, 70, 73, 3, 0, 0, 9], some 2, none, none, 1⟩ 1 2
    { stream_url := [], timestamp := 2 * 1, stream_time := 2 * 1, pts := some 2,
      dts := none, source := TimingSource.amf_onfi,
      extra_data := some ⟨AMF0Value.object []⟩ }
    rfl (by decide) rfl

/-! ### C9

The claim says packets without a decode timestamp are dropped on both the
video/SEI path and the data-track/AMF path, but
`RTMPStreamAnalyzer.process_data_packet` performs no dts check at all. -/

/-- C9 counterexample: a data-track packet with `dts = None` but a valid
`onFI` payload still produces a timing record. -/
theorem c9_counterexample :
    (rtmp_process_data_packet []
        ⟨[2, 0, 4, 111, 110, 70, 73, 3, 0, 0, 9], some 1, none, none, 1⟩
        1).isSome = true ∧
    (⟨[2, 0, 4, 111, 110, 70, 73, 3, 0, 0, 9], some 1, none, none, 1⟩ :
        Packet).dts = none :=
  ⟨rfl, rfl⟩

/-- C9 (amended): a packet whose decode timestamp is falsy (missing or 0)
produces no records on the video/SEI path; the data-track/AMF path has no
decode-timestamp check — whether it emits depends only on `onFI` extraction. -/
theorem c9_no_dts_amended :
    (∀ (url : List Nat) (now : ℚ) (p : Packet),
      tsTruthy p.dts = false → analyze_video_packet url now p = []) ∧
    (∀ (url : List Nat) (p : Packet) (tb : ℚ),
      (rtmp_process_data_packet url p tb).isSome = (extract_onfi_data p.data).isSome) := by
  constructor
  · intro url now p h
    simp [analyze_video_packet, h]
  · intro url p tb
    unfold rtmp_process_data_packet
    cases extract_onfi_data p.data <;> simp

/-- Witness for C9 (amended), video side, at a packet with `dts = None`
carrying an SEI NAL unit. -/
theorem c9_no_dts_amended_witness :
    analyze_video_packet [] 0 ⟨[0, 0, 1, 6, 0, 0], some 7, none, none, 1⟩ = [] :=
  c9_no_dts_amended.1 [] 0 ⟨[0, 0, 1, 6, 0, 0], some 7, none, none, 1⟩ rfl

/-! ### C6 -/

/-- A short string decoded by `read_string` is a clamped slice of the
buffer, starting two bytes (the length field) past the given offset. -/
lemma read_string_slice (data : List Nat) (off : Nat) (s : List Nat) (off2 : Nat)
    (h : read_string data off false = some (s, off2)) :
    ∃ L, s = (data.drop (off + 2)).take L := by
  unfold read_string read_u16 at h
  by_cases hb : off + 2 ≤ data.length
  · simp only [if_pos hb, Bool.false_eq_true, if_false] at h
    split at h
    · cases h
      exact ⟨_, rfl⟩
    · cases h
  · simp [if_neg hb] at h

/-- A take-slice equal to the `'onFI'` bytes makes the suffix start with
them. -/
lemma take_onfi_starts (xs : List Nat) (L : Nat) (h : xs.take L = onFIBytes) :
    startsWithOnfi xs = true := by
  have hlen : min L xs.length = 4 := by
    have hc := congrArg List.length h
    simpa [List.length_take, onFIBytes] using hc
  have hL4 : 4 ≤ L := by omega
  have h4 : xs.take 4 = onFIBytes := by
    have hc := congrArg (List.take 4) h
    rw [List.take_take, Nat.min_eq_left hL4] at hc
    simpa [onFIBytes] using hc
  simp [startsWithOnfi, h4]

/-- If any suffix of the buffer starts with the `'onFI'` bytes, the buffer
contains them. -/
lemma startsWith_contains (o : Nat) :
    ∀ data : List Nat, startsWithOnfi (data.drop o) = true → containsOnfi data = true := by
  induction o with
  | zero =>
    intro data h
    cases data with
    | nil => simp [startsWithOnfi, onFIBytes] at h
    | cons x r => simp only [List.drop_zero] at h; simp [containsOnfi, h]
  | succ o ih =>
    intro data h
    cases data with
    | nil => simp [startsWithOnfi, onFIBytes] at h
    | cons x r =>
      have hr : containsOnfi r = true := ih r (by simpa using h)
      simp [containsOnfi, hr]

/-- The `extract_onfi_data` scan loop never produces a message from a buffer
that nowhere contains the `'onFI'` bytes. -/
lemma onfiLoop_no_onfi (data : List Nat) (hno : containsOnfi data = false) :
    ∀ fuel offset, onfiLoop data fuel offset = none := by
  intro fuel
  induction fuel with
  | zero => intro offset; rfl
  | succ fuel ih =>
    intro offset
    rw [onfiLoop]
    by_cases hoff : offset < data.length
    · simp only [if_pos hoff]
      cases hu8 : read_u8 data offset with
      | none => rfl
      | some mo =>
        obtain ⟨marker, newOff⟩ := mo
        by_cases hm : marker = 2
        · simp only [hm]
          cases hrs : read_string data newOff false with
          | none => simp
          | some so =>
            obtain ⟨cmd, newOff2⟩ := so
            by_cases hcmd : cmd = onFIBytes
            · exfalso
              obtain ⟨L, hL⟩ := read_string_slice data newOff cmd newOff2 hrs
              have h1 : startsWithOnfi (data.drop (newOff + 2)) = true :=
                take_onfi_starts _ L (by rw [← hL]; exact hcmd)
              have h2 := startsWith_contains (newOff + 2) data h1
              rw [h2] at hno
              cases hno
            · simp only [if_neg hcmd]
              exact ih newOff2
        · simp only [if_neg hm]
          cases hp : parse_amf0_value (data.length + 1) data offset with
          | none => simp
          | some vo =>
            obtain ⟨v, off'⟩ := vo
            simp only []
            exact ih off'
    · simp [hoff]

/-- C6: `extract_onfi` returns absent for every buffer that nowhere contains
the `'onFI'` byte sequence (in particular on exhaustion and on structural
decode errors, both of which are folded into the absent result rather than a
propagated exception); and at a position where an AMF0 String `'onFI'` is
decoded, it returns exactly the next AMF0 value, wrapped. -/
theorem c6_extract_onfi :
    (∀ data : List Nat, containsOnfi data = false → extract_onfi_data data = none) ∧
    extract_onfi_data [2, 0, 4, 111, 110, 70, 73, 3, 0, 0, 9] =
      some ⟨AMF0Value.object []⟩ := by
  constructor
  · intro data h
    exact onfiLoop_no_onfi data h _ 0
  · rfl

/-- Witness for C6's universal part on a concrete `onFI`-free buffer. -/
theorem c6_extract_onfi_witness : extract_onfi_data [1, 2, 3] = none :=
  c6_extract_onfi.1 [1, 2, 3] rfl

/-! ### C7 -/

/-- The seconds/minutes/hours chain only ever fills fields nested inside
their governing flags' branches, starting from a timestamp with all three
absent. -/
lemma ct_read_hms_presence (bits : List Bool) (p7 : Nat) (fullFlag : Bool)
    (base ct : ClockTimestamp)
    (hs : base.seconds_value = none) (hm : base.minutes_value = none)
    (hh : base.hours_value = none)
    (h : (ct_read_hms bits p7 fullFlag base).1 = some ct) :
    ct.full_timestamp_flag = base.full_timestamp_flag ∧
    (fullFlag = true →
      ct.seconds_value.isSome ∧ ct.minutes_value.isSome ∧ ct.hours_value.isSome) ∧
    (ct.hours_value.isSome → ct.minutes_value.isSome) ∧
    (ct.minutes_value.isSome → ct.seconds_value.isSome) := by
  unfold ct_read_hms at h
  repeat' split at h
  all_goals
    first
    | (simp only [Option.some.injEq] at h; subst h; simp_all)
    | (exfalso; simp at h)

/-- `ct_finish` never touches the seconds/minutes/hours/full-flag fields of
the timestamp it completes. -/
lemma ct_finish_fields (bits : List Bool) (tol : Nat) (r : Option ClockTimestamp × Nat)
    (ct : ClockTimestamp) (pe : Nat) (h : ct_finish bits tol r = (some ct, pe)) :
    ∃ ct', r.1 = some ct' ∧
      ct.seconds_value = ct'.seconds_value ∧ ct.minutes_value = ct'.minutes_value ∧
      ct.hours_value = ct'.hours_value ∧
      ct.full_timestamp_flag = ct'.full_timestamp_flag := by
  obtain ⟨o, p8⟩ := r
  unfold ct_finish at h
  cases o with
  | none => simp at h
  | some ct' =>
    refine ⟨ct', rfl, ?_⟩
    dsimp only at h
    split at h
    · split at h
      · simp at h
      · rw [Prod.mk.injEq] at h
        obtain ⟨h1, -⟩ := h
        rw [Option.some.injEq] at h1
        subst h1
        simp
    · rw [Prod.mk.injEq] at h
      obtain ⟨h1, -⟩ := h
      rw [Option.some.injEq] at h1
      subst h1
      simp

/-- C7: every `ClockTimestamp` produced by the picture-timing parser obeys
the conditional-presence chain of §4.2: the full-timestamp branch sets all of
seconds/minutes/hours; in the non-full chain presence is nested
(`hours` present only inside the minutes-bearing branch, `minutes` only
inside the seconds-bearing branch), so each unset flag leaves every later
field `none` — absent, not zero. -/
theorem c7_presence_chain (bits : List Bool) (pos tol pe : Nat) (ct : ClockTimestamp)
    (h : parse_clock_timestamp bits pos tol = (some ct, pe)) :
    (ct.full_timestamp_flag = some true →
      ct.seconds_value.isSome ∧ ct.minutes_value.isSome ∧ ct.hours_value.isSome) ∧
    (ct.hours_value.isSome → ct.minutes_value.isSome) ∧
    (ct.minutes_value.isSome → ct.seconds_value.isSome) := by
  unfold parse_clock_timestamp at h
  dsimp only at h
  repeat' split at h
  any_goals (exfalso; simp at h; done)
  all_goals (
    rename_i ctType p1 nuit p2 counting p3 fullFlag p4 disc p5 cnt p6 nFrames p7
    obtain ⟨ct', hr, hseq, hmeq, hheq, hfeq⟩ := ct_finish_fields _ _ _ _ _ h
    obtain ⟨hfull, hfb, hch1, hch2⟩ :=
      ct_read_hms_presence _ _ _ _ _ rfl rfl rfl hr
    refine ⟨?_, ?_, ?_⟩
    · intro hft
      rw [hfeq, hfull] at hft
      simp only [Option.some.injEq] at hft
      have := hfb hft
      rw [hseq, hmeq, hheq]
      exact this
    · intro hhs
      rw [hmeq]
      exact hch1 (hheq ▸ hhs)
    · intro hms
      rw [hseq]
      exact hch2 (hmeq ▸ hms))

/-- Witness for C7 on 48 zero bits: full flag false, seconds flag unset, so
seconds/minutes/hours all come out absent. -/
theorem c7_presence_chain_witness :
    ((⟨some 0, some false, some 0, some false, some false, some false, some 0,
        none, none, none, some 0⟩ : ClockTimestamp).full_timestamp_flag = some true →
      (⟨some 0, some false, some 0, some false, some false, some false, some 0,
        none, none, none, some 0⟩ : ClockTimestamp).seconds_value.isSome ∧
      (⟨some 0, some false, some 0, some false, some false, some false, some 0,
        none, none, none, some 0⟩ : ClockTimestamp).minutes_value.isSome ∧
      (⟨some 0, some false, some 0, some false, some false, some false, some 0,
        none, none, none, some 0⟩ : ClockTimestamp).hours_value.isSome) ∧
    ((⟨some 0, some false, some 0, some false, some false, some false, some 0,
        none, none, none, some 0⟩ : ClockTimestamp).hours_value.isSome →
      (⟨some 0, some false, some 0, some false, some false, some false, some 0,
        none, none, none, some 0⟩ : ClockTimestamp).minutes_value.isSome) ∧
    ((⟨some 0, some false, some 0, some false, some false, some false, some 0,
        none, none, none, some 0⟩ : ClockTimestamp).minutes_value.isSome →
      (⟨some 0, some false, some 0, some false, some false, some false, some 0,
        none, none, none, some 0⟩ : ClockTimestamp).seconds_value.isSome) :=
  c7_presence_chain (bytesToBits (List.replicate 6 0)) 0 24 44
    ⟨some 0, some false, some 0, some false, some false, some false, some 0,
      none, none, none, some 0⟩ rfl

/-! ### C5 -/

/-- C5: whenever a payload's envelope-declared size fits in the buffer, the
position returned by `_read_sei_payload` is exactly the envelope position
plus the declared `payload_size` — independent of how many bytes the
bit-level parser consumed, and whether or not it succeeded; and on a
concrete SEI NAL unit whose middle picture-timing payload dies on a bit read
past its end, only that payload is abandoned while its siblings on both
sides are still returned. -/
theorem c5_envelope_advance :
    (∀ (data : List Nat) (pos t p1 s p2 : Nat),
      readSeiEnvelope data pos = (t, p1) → readSeiEnvelope data p1 = (s, p2) →
      p2 + s ≤ data.length →
      (read_sei_payload data pos).2 = p2 + s) ∧
    parse_sei [6, 5, 16, 1, 2, 3, 4, 5, 6, 7, 8, 9, 10, 11, 12, 13, 14, 15, 16,
               1, 0, 1, 1, 0] =
      [⟨SEIBody.userDataUnregistered
          [1, 2, 3, 4, 5, 6, 7, 8, 9, 10, 11, 12, 13, 14, 15, 16] none, 5, 16⟩,
       ⟨SEIBody.picTiming ⟨0, []⟩, 1, 1⟩] := by
  constructor
  · intro data pos t p1 s p2 h1 h2 h3
    unfold read_sei_payload
    rw [h1]
    dsimp only
    rw [h2]
    dsimp only
    rw [if_pos h3]
    cases parse_sei_payload ((data.drop p2).take s) t <;> rfl
  · rfl

/-- Witness for C5's universal part on a 2-byte buffer. -/
theorem c5_envelope_advance_witness : (read_sei_payload [0, 0] 0).2 = 2 :=
  c5_envelope_advance.1 [0, 0] 0 0 1 0 2 rfl rfl (by decide)

/-! ### C1 -/

/-- An AVCC encoding is at least as long as its unit count (each unit
contributes a 4-byte length prefix). -/
lemma encodeAvcc_len_ge (ps : List (List Nat)) : ps.length ≤ (encodeAvcc ps).length := by
  induction ps with
  | nil => simp [encodeAvcc]
  | cons p t ih =>
    have h : encodeAvcc (p :: t) = be32 p.length ++ (p ++ encodeAvcc t) := by
      simp [encodeAvcc]
    rw [h]
    simp only [List.length_append, List.length_cons]
    have hb : (be32 p.length).length = 4 := rfl
    omega

/-- Recombining the four big-endian bytes of a 32-bit value. -/
lemma be32_val (n : Nat) (hn : n < 4294967296) :
    n / 16777216 % 256 * 16777216 + n / 65536 % 256 * 65536 + n / 256 % 256 * 256 + n % 256
      = n := by omega

/-- The AVCC-mode loop inverts the AVCC encoding, at any position following
an arbitrary prefix, for any sufficient fuel. -/
lemma avccLoop_encode (ps : List (List Nat)) :
    ∀ (pre : List Nat) (fuel : Nat), (∀ p ∈ ps, p.length < 4294967296) →
      ps.length < fuel →
      avccLoop (pre ++ encodeAvcc ps) fuel pre.length = some ps := by
  induction ps with
  | nil =>
    intro pre fuel _ hf
    obtain ⟨f, rfl⟩ : ∃ f, fuel = f + 1 := ⟨fuel - 1, by omega⟩
    show avccLoop (pre ++ []) (f + 1) pre.length = some []
    rw [List.append_nil, avccLoop]
    simp
  | cons p t ih =>
    intro pre fuel hlen hf
    obtain ⟨f, rfl⟩ : ∃ f, fuel = f + 1 := ⟨fuel - 1, by omega⟩
    have hL : p.length < 4294967296 := hlen p (by simp)
    have hb : (be32 p.length).length = 4 := rfl
    have henc : encodeAvcc (p :: t) = be32 p.length ++ (p ++ encodeAvcc t) := by
      simp [encodeAvcc]
    rw [henc, avccLoop]
    have hlen1 : (pre ++ (be32 p.length ++ (p ++ encodeAvcc t))).length
        = pre.length + 4 + p.length + (encodeAvcc t).length := by
      simp only [List.length_append, hb]
      omega
    rw [if_neg (by rw [hlen1]; omega)]
    rw [if_pos (by rw [hlen1]; omega)]
    have hbe : be32At (pre ++ (be32 p.length ++ (p ++ encodeAvcc t))) pre.length
        = p.length := by
      unfold be32At
      rw [List.drop_left]
      rw [show (4 : Nat) = (be32 p.length).length from rfl, List.take_left]
      simp only [be32]
      exact be32_val p.length hL
    rw [hbe]
    rw [if_pos (by rw [hlen1]; omega)]
    have hdrop2 : (pre ++ (be32 p.length ++ (p ++ encodeAvcc t))).drop (pre.length + 4)
        = p ++ encodeAvcc t := by
      rw [show pre ++ (be32 p.length ++ (p ++ encodeAvcc t))
            = (pre ++ be32 p.length) ++ (p ++ encodeAvcc t) by simp [List.append_assoc]]
      exact List.drop_left' (by simp [hb])
    rw [hdrop2, List.take_left]
    have hrec : avccLoop (pre ++ (be32 p.length ++ (p ++ encodeAvcc t))) f
        (pre.length + 4 + p.length) = some t := by
      have he : pre ++ (be32 p.length ++ (p ++ encodeAvcc t))
          = (pre ++ be32 p.length ++ p) ++ encodeAvcc t := by simp [List.append_assoc]
      have hl : (pre ++ be32 p.length ++ p).length = pre.length + 4 + p.length := by
        simp only [List.length_append, hb]
      rw [he, ← hl]
      exact ih (pre ++ be32 p.length ++ p) f (fun q hq => hlen q (by simp [hq]))
        (by simp at hf; omega)
    rw [hrec]
    rfl

/-- C1: the dual-mode scanner recovers, from any AVCC (4-byte big-endian
length-prefixed) encoding of a sequence of NAL units, exactly the original
payload sequence in order: the AVCC attempt succeeds without ever reading a
length past the buffer end, so the start-code fallback is never consulted. -/
theorem c1_avcc_roundtrip (ps : List (List Nat)) (h : ∀ p ∈ ps, p.length < 2 ^ 32) :
    scan (encodeAvcc ps) = ps := by
  have h' : ∀ p ∈ ps, p.length < 4294967296 := by
    intro p hp
    have := h p hp
    omega
  have hge := encodeAvcc_len_ge ps
  have hloop := avccLoop_encode ps [] ((encodeAvcc ps).length + 1) h' (by omega)
  rw [List.nil_append] at hloop
  unfold scan avcc_scan
  rw [show ([] : List Nat).length = 0 from rfl] at hloop
  rw [hloop]

/-- Witness for C1 on a concrete two-unit sequence. -/
theorem c1_avcc_roundtrip_witness : scan (encodeAvcc [[6, 1], [7]]) = [[6, 1], [7]] :=
  c1_avcc_roundtrip [[6, 1], [7]] (by decide)

/-! ### C2 -/

/-- A start-code prefix only looks at the first three bytes. -/
lemma hasSCPrefix_append (l t : List Nat) (h : 3 ≤ l.length) :
    hasSCPrefix (l ++ t) = hasSCPrefix l := by
  unfold hasSCPrefix
  rw [List.take_append_of_le_length h]

/-- Splitting a failed start-code search on a nonempty list. -/
lemma findSC_cons_none (a : Nat) (l : List Nat) (h : findSC (a :: l) = none) :
    hasSCPrefix (a :: l) = false ∧ findSC l = none := by
  rw [findSC] at h
  by_cases hp : hasSCPrefix (a :: l)
  · rw [if_pos hp] at h
    cases h
  · rw [if_neg hp] at h
    exact ⟨Bool.eq_false_iff.2 hp, by simpa using h⟩

/-- A buffer with no start code followed by a start code: the first match is
exactly at the seam (no occurrence can span it, since the byte before a
start code never completes `00 00 01`). -/
lemma findSC_seam (t : List Nat) :
    ∀ p : List Nat, findSC p = none → findSC (p ++ 0 :: 0 :: 1 :: t) = some p.length := by
  intro p
  induction p with
  | nil =>
    intro _
    simp [findSC, hasSCPrefix]
  | cons a p' ih =>
    intro h
    obtain ⟨hpref, hrest⟩ := findSC_cons_none a p' h
    have key : hasSCPrefix (a :: (p' ++ 0 :: 0 :: 1 :: t)) = false := by
      match p' with
      | [] => simp [hasSCPrefix]
      | [x] => simp [hasSCPrefix]
      | x :: y :: p'' =>
        have h2 := hasSCPrefix_append (a :: x :: y :: p'') (0 :: 0 :: 1 :: t) (by simp)
        simp only [List.cons_append] at h2 ⊢
        rw [h2]
        exact hpref
    rw [List.cons_append, findSC, key]
    simp only [Bool.false_eq_true, if_false]
    rw [ih hrest]
    simp

/-- The start-code scanning loop inverts the 3-byte-start-code encoding of
nonempty, start-code-free payloads, at any position following an arbitrary
prefix, for any sufficient fuel. -/
lemma scanLoop_encode (ps : List (List Nat)) :
    ∀ (pre : List Nat) (fuel : Nat),
      (∀ p ∈ ps, p ≠ [] ∧ findSC p = none) → ps.length < fuel →
      scanLoop (pre ++ encodeAnnexB ps) fuel pre.length = ps := by
  induction ps with
  | nil =>
    intro pre fuel _ hf
    obtain ⟨f, rfl⟩ : ∃ f, fuel = f + 1 := ⟨fuel - 1, by omega⟩
    show scanLoop (pre ++ []) (f + 1) pre.length = []
    rw [List.append_nil, scanLoop]
    simp
  | cons p t ih =>
    intro pre fuel hok hf
    obtain ⟨f, rfl⟩ : ∃ f, fuel = f + 1 := ⟨fuel - 1, by omega⟩
    obtain ⟨hpne, hpsc⟩ := hok p (by simp)
    have henc : encodeAnnexB (p :: t) = 0 :: 0 :: 1 :: (p ++ encodeAnnexB t) := rfl
    rw [henc, scanLoop]
    have hlenD : (pre ++ 0 :: 0 :: 1 :: (p ++ encodeAnnexB t)).length
        = pre.length + 3 + p.length + (encodeAnnexB t).length := by
      simp only [List.length_append, List.length_cons]
      omega
    rw [if_pos (by rw [hlenD]; omega)]
    have hfind1 : find3 (pre ++ 0 :: 0 :: 1 :: (p ++ encodeAnnexB t)) pre.length
        = some pre.length := by
      unfold find3
      rw [List.drop_left]
      rw [show findSC (0 :: 0 :: 1 :: (p ++ encodeAnnexB t)) = some 0 by
        simp [findSC, hasSCPrefix]]
      simp
    rw [hfind1]
    dsimp only
    have hsplit : pre ++ 0 :: 0 :: 1 :: (p ++ encodeAnnexB t)
        = (pre ++ [0, 0, 1]) ++ (p ++ encodeAnnexB t) := by
      simp [List.append_assoc]
    have hdrop3 : (pre ++ 0 :: 0 :: 1 :: (p ++ encodeAnnexB t)).drop (pre.length + 3)
        = p ++ encodeAnnexB t := by
      rw [hsplit]
      exact List.drop_left' (by simp)
    cases t with
    | nil =>
      have hfind2 : find3 (pre ++ 0 :: 0 :: 1 :: (p ++ encodeAnnexB []))
          (pre.length + 3) = none := by
        unfold find3
        rw [hdrop3]
        show (findSC (p ++ encodeAnnexB [])).map _ = none
        rw [show encodeAnnexB ([] : List (List Nat)) = [] from rfl, List.append_nil, hpsc]
        rfl
      rw [hfind2]
      dsimp only
      rw [hdrop3]
      rw [show encodeAnnexB ([] : List (List Nat)) = [] from rfl, List.append_nil]
      rw [if_neg hpne]
    | cons q t' =>
      have hencq : encodeAnnexB (q :: t') = 0 :: 0 :: 1 :: (q ++ encodeAnnexB t') := rfl
      have hfind2 : find3 (pre ++ 0 :: 0 :: 1 :: (p ++ encodeAnnexB (q :: t')))
          (pre.length + 3) = some (p.length + (pre.length + 3)) := by
        unfold find3
        rw [hdrop3, hencq]
        rw [findSC_seam (q ++ encodeAnnexB t') p hpsc]
        rfl
      rw [hfind2]
      dsimp only
      rw [hdrop3]
      have htake : (p ++ encodeAnnexB (q :: t')).take (p.length + (pre.length + 3) - (pre.length + 3))
          = p := by
        rw [Nat.add_sub_cancel, List.take_left]
      rw [htake, if_neg hpne]
      have hns : p.length + (pre.length + 3) = (pre ++ 0 :: 0 :: 1 :: p).length := by
        simp only [List.length_append, List.length_cons]
        omega
      have hD : pre ++ 0 :: 0 :: 1 :: (p ++ encodeAnnexB (q :: t'))
          = (pre ++ 0 :: 0 :: 1 :: p) ++ encodeAnnexB (q :: t') := by
        simp [List.append_assoc]
      rw [hns, hD]
      rw [ih (pre ++ 0 :: 0 :: 1 :: p) f (fun r hr => hok r (by simp [hr]))
        (by simp only [List.length_cons] at hf ⊢; omega)]

/-- An Annex-B encoding is at least as long as its unit count (each unit
contributes a 3-byte start code). -/
lemma encodeAnnexB_len_ge (ps : List (List Nat)) :
    ps.length ≤ (encodeAnnexB ps).length := by
  induction ps with
  | nil => simp [encodeAnnexB]
  | cons p t ih =>
    have h : encodeAnnexB (p :: t) = 0 :: 0 :: 1 :: (p ++ encodeAnnexB t) := rfl
    rw [h]
    simp only [List.length_cons, List.length_append]
    omega

/-- The start-code scanning loop never yields an empty span. -/
lemma scanLoop_no_empty (data : List Nat) :
    ∀ fuel i, ¬ ([] ∈ scanLoop data fuel i) := by
  intro fuel
  induction fuel with
  | zero => intro i h; simp [scanLoop] at h
  | succ f ih =>
    intro i h
    rw [scanLoop] at h
    by_cases hi : i < data.length
    · rw [if_pos hi] at h
      cases h1 : find3 data i with
      | none => rw [h1] at h; simp at h
      | some s0 =>
        rw [h1] at h
        dsimp only at h
        cases h2 : find3 data (s0 + 3) with
        | none =>
          rw [h2] at h
          dsimp only at h
          split at h
          · simp at h
          · rename_i hne
            simp only [List.mem_singleton] at h
            exact hne h.symm
        | some ns =>
          rw [h2] at h
          dsimp only at h
          split at h
          · exact ih ns h
          · rename_i hne
            rcases List.mem_cons.1 h with hh | hh
            · exact hne hh.symm
            · exact ih ns hh
    · rw [if_neg hi] at h
      simp at h

/-- C2 counterexample: the payload `[0x00, 0x00, 0x01]` is nonempty, yet the
start-code scan of its 3-byte-start-code encoding does not return it (the
scanner yields nothing at all): embedded start codes break the round trip. -/
theorem c2_counterexample :
    ¬ (extract_nals_from_packet (encodeAnnexB [[0, 0, 1]]) = [[0, 0, 1]]) := by
  decide

/-- C2 (amended): the start-code scan recovers, from the 3-byte-start-code
encoding of a sequence of nonempty payloads *none of which contains the
start code `00 00 01` as a substring*, exactly those payloads in order, each
span running from just after one start code to just before the next (or to
the buffer end); and empty spans are never yielded, on any input. -/
theorem c2_startcode_amended :
    (∀ ps : List (List Nat), (∀ p ∈ ps, p ≠ [] ∧ findSC p = none) →
      extract_nals_from_packet (encodeAnnexB ps) = ps) ∧
    (∀ data : List Nat, ¬ ([] ∈ extract_nals_from_packet data)) := by
  constructor
  · intro ps hok
    have hge := encodeAnnexB_len_ge ps
    have hloop := scanLoop_encode ps [] ((encodeAnnexB ps).length + 1) hok (by omega)
    rw [List.nil_append] at hloop
    exact hloop
  · intro data
    exact scanLoop_no_empty data (data.length + 1) 0

/-- Witness for C2 (amended) on a concrete two-unit sequence. -/
theorem c2_startcode_amended_witness :
    extract_nals_from_packet (encodeAnnexB [[6], [7, 8]]) = [[6], [7, 8]] :=
  c2_startcode_amended.1 [[6], [7, 8]] (by decide)

end S2P
